import Mathlib

/-!
Shallow embedding of `open_seq2seq/optimizers/novograd.py`.

The file defines the three optimizer variants of the source
(`NovoGrad2`, `NovoGrad`, `SethOptimizer`) over real numbers:

* tensors are `List ℝ`; a gradient/variable pair is `List ℝ × List ℝ`;
* the per-layer EMA variables (`self._grads_ema`, a Python list of scalar
  TF variables created lazily on the first `apply_gradients` call) are an
  `Option (List ℝ)` field of the optimizer state, `none` before the first
  call;
* `apply_gradients` returns the updated optimizer state together with
  either the rescaled `grads_and_vars` list handed to the
  `MomentumOptimizer` delegate, or the Python exception the loop raises
  (an out-of-range list access raises `IndexError`);
* the `MomentumOptimizer` delegate itself is TensorFlow library code and
  is modelled separately (`momentumApply`).
-/

namespace NovoGradVerify

/-- Python exceptions relevant to the embedded code paths. -/
inductive PyError where
  | IndexError
  | ConfigurationError
  deriving DecidableEq

/-- Embeds `tf.reduce_sum(tf.square(grad))`: the sum of squared entries of a
gradient tensor (novograd.py line 104). -/
noncomputable def sumSq (g : List ℝ) : ℝ :=
  (g.map fun x => x ^ 2).sum

/-- Embeds `tf.norm(tensor=grad, ord=p)`: the vector p-norm
`(sum |x|^p)^(1/p)` used by `NovoGrad.apply_gradients` (line 208). -/
noncomputable def lpNorm (p : ℝ) (g : List ℝ) : ℝ :=
  ((g.map fun x => |x| ^ p).sum) ^ (1 / p)

/-- Embeds `tf.norm(tensor=grad, ord=2)`: the Euclidean norm used by
`SethOptimizer._apply_dense` (line 268). -/
noncomputable def l2Norm (g : List ℝ) : ℝ :=
  Real.sqrt (sumSq g)

/-- The EMA update of both `NovoGrad2` (lines 105-109) and `NovoGrad`
(lines 209-212):
`tf.cond(tf.equal(ema_i, 0.), lambda: stat, lambda: ema_i*beta2 + stat*(1.-beta2))`. -/
noncomputable def emaUpdate (beta2 v stat : ℝ) : ℝ :=
  if v = 0 then stat else v * beta2 + stat * (1 - beta2)

/-- One iteration of the `NovoGrad2.apply_gradients` loop body
(lines 103-116) for a single `(grad, var)` pair whose stored EMA value is
`v`: returns the new EMA value and the rescaled `(grad, var)` pair. -/
noncomputable def novograd2Group (beta1 beta2 eps wd : ℝ) (v : ℝ)
    (gw : List ℝ × List ℝ) : ℝ × (List ℝ × List ℝ) :=
  let g_2 := sumSq gw.1
  let v2 := emaUpdate beta2 v g_2
  let g_factor := (1 - beta1) / Real.sqrt (v2 + eps)
  let grad1 := gw.1.map fun x => x * g_factor
  let grad2 := if wd > 0 then
      List.zipWith (fun g w => g + ((1 - beta1) * wd) * w) grad1 gw.2
    else grad1
  (v2, (grad2, gw.2))

/-- One iteration of the `NovoGrad.apply_gradients` loop body
(lines 207-215): EMA of the p-norm, factor `beta1 / (v2 + eps)`,
`tf.scalar_mul(g_factor, grad)`. -/
noncomputable def novogradGroup (beta1 beta2 eps p : ℝ) (v : ℝ)
    (gw : List ℝ × List ℝ) : ℝ × (List ℝ × List ℝ) :=
  let g_norm := lpNorm p gw.1
  let v2 := emaUpdate beta2 v g_norm
  let g_factor := beta1 / (v2 + eps)
  let grad1 := gw.1.map fun x => g_factor * x
  (v2, (grad1, gw.2))

/-- The `for i, (grad, var) in enumerate(grads_and_vars)` loop shared by
`NovoGrad2.apply_gradients` and `NovoGrad.apply_gradients`, parametrised
by the per-group body `step`.  `ema` is the Python list
`self._grads_ema`, `i` the running index.  Reading `self._grads_ema[i]`
out of range raises `IndexError`; the first component of the result is
the EMA list as mutated so far (Python mutates the list in place, so the
partial updates survive a raised exception). -/
noncomputable def emaLoop (step : ℝ → List ℝ × List ℝ → ℝ × (List ℝ × List ℝ)) :
    List ℝ → ℕ → List (List ℝ × List ℝ) →
      List ℝ × Except PyError (List (List ℝ × List ℝ))
  | ema, _, [] => (ema, Except.ok [])
  | ema, i, gw :: rest =>
    match ema[i]? with
    | none => (ema, Except.error PyError.IndexError)
    | some v =>
      let sv := step v gw
      let r := emaLoop step (ema.set i sv.1) (i + 1) rest
      (r.1, Except.map (fun out => sv.2 :: out) r.2)

/-- State of a `NovoGrad2` optimizer instance: the constructor arguments
stored in `__init__` (lines 54-79) plus the lazily created
`self._grads_ema` list.  `use_nesterov` records the value passed to the
`MomentumOptimizer` base constructor. -/
structure NovoGrad2State where
  learning_rate : ℝ
  beta1 : ℝ
  beta2 : ℝ
  epsilon : ℝ
  weight_decay : ℝ
  use_locking : Bool
  use_nesterov : Bool
  grads_ema : Option (List ℝ)

/-- Embeds `NovoGrad2.__init__` (lines 54-79): stores the hyperparameters,
passes `momentum=beta1`, `use_nesterov=False` to the base constructor
and sets `self._grads_ema = None`.  No validation is performed. -/
def NovoGrad2.init (lr beta1 beta2 eps wd : ℝ) (ul : Bool) : NovoGrad2State :=
  ⟨lr, beta1, beta2, eps, wd, ul, false, none⟩

/-- Python `NovoGrad2.__init__` viewed as a fallible Python call: the body
contains no check that could raise, so it always succeeds. -/
def NovoGrad2.initE (lr beta1 beta2 eps wd : ℝ) (ul : Bool) :
    Except PyError NovoGrad2State :=
  Except.ok (NovoGrad2.init lr beta1 beta2 eps wd ul)

/-- Embeds `self._grads_ema` as seen at the top of `apply_gradients`
(lines 94-100): if still `None` it is created as `n` zero-initialized
scalar variables, otherwise the stored list is used unchanged. -/
def NovoGrad2.emaInit (s : NovoGrad2State) (n : ℕ) : List ℝ :=
  match s.grads_ema with
  | none => List.replicate n 0
  | some e => e

/-- Embeds `NovoGrad2.apply_gradients` (lines 86-120) up to the delegation to
`MomentumOptimizer.apply_gradients`: initializes the EMA variables if
required, runs the rescaling loop, stores the mutated EMA list and
returns the rescaled `grads_and_vars` (or the exception the loop
raised). -/
noncomputable def NovoGrad2.apply_gradients (s : NovoGrad2State)
    (grads_and_vars : List (List ℝ × List ℝ)) :
    NovoGrad2State × Except PyError (List (List ℝ × List ℝ)) :=
  let ema0 := NovoGrad2.emaInit s grads_and_vars.length
  let r := emaLoop (novograd2Group s.beta1 s.beta2 s.epsilon s.weight_decay)
      ema0 0 grads_and_vars
  (⟨s.learning_rate, s.beta1, s.beta2, s.epsilon, s.weight_decay,
    s.use_locking, s.use_nesterov, some r.1⟩, r.2)

/-- Iterated `apply_gradients` calls on a `NovoGrad2` instance,
keeping only the state. -/
noncomputable def NovoGrad2.run (s : NovoGrad2State)
    (calls : List (List (List ℝ × List ℝ))) : NovoGrad2State :=
  calls.foldl (fun st gvs => (NovoGrad2.apply_gradients st gvs).1) s

/-- State of a `NovoGrad` optimizer instance (lines 168-192). -/
structure NovoGradState where
  learning_rate : ℝ
  beta1 : ℝ
  beta2 : ℝ
  epsilon : ℝ
  ord : ℝ
  use_locking : Bool
  use_nesterov : Bool
  grads_ema : Option (List ℝ)

/-- Embeds `NovoGrad.__init__` (lines 168-192): stores the hyperparameters,
passes `momentum=beta1`, `use_nesterov=False` to the base constructor.
No validation is performed. -/
def NovoGrad.init (lr beta1 beta2 eps p : ℝ) (ul : Bool) : NovoGradState :=
  ⟨lr, beta1, beta2, eps, p, ul, false, none⟩

/-- Python `NovoGrad.__init__` viewed as a fallible Python call: it always
succeeds. -/
def NovoGrad.initE (lr beta1 beta2 eps p : ℝ) (ul : Bool) :
    Except PyError NovoGradState :=
  Except.ok (NovoGrad.init lr beta1 beta2 eps p ul)

/-- Embeds `self._grads_ema` at the top of `NovoGrad.apply_gradients`
(lines 199-205). -/
def NovoGrad.emaInit (s : NovoGradState) (n : ℕ) : List ℝ :=
  match s.grads_ema with
  | none => List.replicate n 0
  | some e => e

/-- Embeds `NovoGrad.apply_gradients` (lines 194-218) up to the delegation to
`MomentumOptimizer.apply_gradients`. -/
noncomputable def NovoGrad.apply_gradients (s : NovoGradState)
    (grads_and_vars : List (List ℝ × List ℝ)) :
    NovoGradState × Except PyError (List (List ℝ × List ℝ)) :=
  let ema0 := NovoGrad.emaInit s grads_and_vars.length
  let r := emaLoop (novogradGroup s.beta1 s.beta2 s.epsilon s.ord)
      ema0 0 grads_and_vars
  (⟨s.learning_rate, s.beta1, s.beta2, s.epsilon, s.ord,
    s.use_locking, s.use_nesterov, some r.1⟩, r.2)

/-- Iterated `apply_gradients` calls on a `NovoGrad` instance. -/
noncomputable def NovoGrad.run (s : NovoGradState)
    (calls : List (List (List ℝ × List ℝ))) : NovoGradState :=
  calls.foldl (fun st gvs => (NovoGrad.apply_gradients st gvs).1) s

/-- State of a `SethOptimizer` instance (lines 232-252): constructor
arguments only — the class creates no EMA variables.  `use_nesterov`
records the value forwarded to the `MomentumOptimizer` base constructor
(line 246-247). -/
structure SethState where
  learning_rate : ℝ
  momentum : ℝ
  epsilon : ℝ
  use_locking : Bool
  use_nesterov : Bool

/-- Embeds `SethOptimizer.__init__` (lines 232-252): forwards `use_nesterov`
from the caller to the base constructor. -/
def SethOptimizer.init (lr momentum eps : ℝ) (ul un : Bool) : SethState :=
  ⟨lr, momentum, eps, ul, un⟩

/-- Modelled from the spec: the `MomentumOptimizer` delegate (§4.3 of
the spec; the TensorFlow base class is not part of this repository).
Heavy-ball momentum without Nesterov:
`m_new = beta1 * m_old + g` and `w_new = w_old - lr * m_new`. -/
noncomputable def momentumApply (lr beta : ℝ) (mw : List ℝ × List ℝ)
    (g : List ℝ) : List ℝ × List ℝ :=
  let m2 := List.zipWith (fun mi gi => beta * mi + gi) mw.1 g
  let w2 := List.zipWith (fun wi mi => wi - lr * mi) mw.2 m2
  (m2, w2)

/-- Embeds `SethOptimizer._apply_dense` (lines 266-270): rescale the gradient
by `beta / (g_norm + epsilon)` with the instantaneous Euclidean norm of
the current gradient, then delegate to the momentum update. -/
noncomputable def SethOptimizer.apply_dense (s : SethState)
    (mw : List ℝ × List ℝ) (grad : List ℝ) : List ℝ × List ℝ :=
  let g_norm := l2Norm grad
  let grad2 := grad.map fun x => (s.momentum / (g_norm + s.epsilon)) * x
  momentumApply s.learning_rate s.momentum mw grad2

/-- A sequence of `SethOptimizer` steps on one parameter: fold
`_apply_dense` over the list of per-step gradients. -/
noncomputable def SethOptimizer.runSteps (s : SethState)
    (mw : List ℝ × List ℝ) (gs : List (List ℝ)) : List ℝ × List ℝ :=
  gs.foldl (SethOptimizer.apply_dense s) mw

/-- Embeds `NovoGradW.__init__` (lines 126-147): delegates to the `NovoGrad2`
constructor; the decoupled weight-decay extension does not change the
arguments passed to the momentum base. -/
def NovoGradW.init (wd lr beta1 beta2 eps : ℝ) (ul : Bool) : NovoGrad2State :=
  NovoGrad2.init lr beta1 beta2 eps wd ul

/-- The `NovoGrad2` per-group computation (lines 103-116) with the
weight-decay logic of lines 89-90 and 113-115 deleted; used only to
compare the weight-decay path against it. -/
noncomputable def novograd2GroupNoDecay (beta1 beta2 eps : ℝ) (v : ℝ)
    (gw : List ℝ × List ℝ) : ℝ × (List ℝ × List ℝ) :=
  let g_2 := sumSq gw.1
  let v2 := emaUpdate beta2 v g_2
  let g_factor := (1 - beta1) / Real.sqrt (v2 + eps)
  let grad1 := gw.1.map fun x => x * g_factor
  (v2, (grad1, gw.2))

/-! ### Generic lemmas about the rescaling loop -/

/-- The loop only rewrites existing EMA entries: the length of
`self._grads_ema` never changes. -/
theorem emaLoop_length (step : ℝ → List ℝ × List ℝ → ℝ × (List ℝ × List ℝ))
    (pairs : List (List ℝ × List ℝ)) :
    ∀ (ema : List ℝ) (i : ℕ),
      ((emaLoop step ema i pairs).1).length = ema.length := by
  induction pairs with
  | nil => intro ema i; rfl
  | cons gw rest ih =>
    intro ema i
    simp only [emaLoop]
    cases h : ema[i]? with
    | none => rfl
    | some v =>
      simpa [List.length_set] using ih (ema.set i (step v gw).1) (i + 1)

/-- Entries below the running index are never touched by the loop. -/
theorem emaLoop_getElem_lt (step : ℝ → List ℝ × List ℝ → ℝ × (List ℝ × List ℝ))
    (pairs : List (List ℝ × List ℝ)) :
    ∀ (ema : List ℝ) (i j : ℕ), j < i →
      ((emaLoop step ema i pairs).1)[j]? = ema[j]? := by
  induction pairs with
  | nil => intro ema i j _; rfl
  | cons gw rest ih =>
    intro ema i j hj
    simp only [emaLoop]
    cases h : ema[i]? with
    | none => rfl
    | some v =>
      have hne : i ≠ j := Nat.ne_of_gt hj
      calc ((emaLoop step (ema.set i (step v gw).1) (i + 1) rest).1)[j]?
          = (ema.set i (step v gw).1)[j]? :=
            ih (ema.set i (step v gw).1) (i + 1) j (Nat.lt_succ_of_lt hj)
        _ = ema[j]? := List.getElem?_set_ne hne

/-- If the supplied pair list overruns the EMA list, the loop raises
`IndexError` (the Python read `self._grads_ema[i]` goes out of range). -/
theorem emaLoop_error (step : ℝ → List ℝ × List ℝ → ℝ × (List ℝ × List ℝ))
    (pairs : List (List ℝ × List ℝ)) :
    ∀ (ema : List ℝ) (i : ℕ), i ≤ ema.length →
      ema.length < i + pairs.length →
      (emaLoop step ema i pairs).2 = Except.error PyError.IndexError := by
  induction pairs with
  | nil =>
    intro ema i hi hlt
    exact absurd hlt (by simpa using hi)
  | cons gw rest ih =>
    intro ema i hi hlt
    have hlt2 : ema.length < i + (rest.length + 1) := by simpa using hlt
    simp only [emaLoop]
    cases h : ema[i]? with
    | none => rfl
    | some v =>
      have hilt : i < ema.length := by
        by_contra hge
        rw [List.getElem?_eq_none (Nat.le_of_not_lt hge)] at h
        exact Option.noConfusion h
      have h1 : i + 1 ≤ (ema.set i (step v gw).1).length := by
        rw [List.length_set]; exact hilt
      have h2 : (ema.set i (step v gw).1).length < (i + 1) + rest.length := by
        rw [List.length_set]; omega
      have hrec := ih (ema.set i (step v gw).1) (i + 1) h1 h2
      simp [hrec, Except.map]

/-- If the pair list fits, the loop succeeds and the `k`-th output pair
is the per-group body applied to the original `k`-th EMA entry and the
`k`-th input pair. -/
theorem emaLoop_ok (step : ℝ → List ℝ × List ℝ → ℝ × (List ℝ × List ℝ))
    (pairs : List (List ℝ × List ℝ)) :
    ∀ (ema : List ℝ) (i : ℕ), i + pairs.length ≤ ema.length →
      ∃ out, (emaLoop step ema i pairs).2 = Except.ok out ∧
        out.length = pairs.length ∧
        ∀ k (hk : k < pairs.length),
          out[k]? = some ((step (ema.getD (i + k) 0) (pairs.get ⟨k, hk⟩)).2) := by
  induction pairs with
  | nil =>
    intro ema i _
    exact ⟨[], rfl, rfl, fun k hk => absurd hk (Nat.not_lt_zero k)⟩
  | cons gw rest ih =>
    intro ema i hle
    have hle' : i + (rest.length + 1) ≤ ema.length := by simpa using hle
    have hilt : i < ema.length := by omega
    have hv : ema[i]? = some (ema.getD i 0) := by
      rw [List.getD_eq_getElem?_getD, List.getElem?_eq_getElem hilt]
      rfl
    have hle2 : (i + 1) + rest.length ≤
        (ema.set i (step (ema.getD i 0) gw).1).length := by
      rw [List.length_set]; omega
    obtain ⟨out2, hout2, hlen2, hk2⟩ :=
      ih (ema.set i (step (ema.getD i 0) gw).1) (i + 1) hle2
    refine ⟨(step (ema.getD i 0) gw).2 :: out2, ?_, by simpa using hlen2, ?_⟩
    · simp only [emaLoop, hv, hout2]
      rfl
    · intro k hk
      cases k with
      | zero =>
        simp only [List.getElem?_cons_zero, Nat.add_zero]
        rfl
      | succ k2 =>
        have hk3 : k2 < rest.length := by simpa using hk
        have hrec := hk2 k2 hk3
        have harith : i + (k2 + 1) = (i + 1) + k2 := by omega
        rw [List.getElem?_cons_succ, hrec, harith]
        have hne : i ≠ (i + 1) + k2 := by omega
        have hgd : (ema.set i (step (ema.getD i 0) gw).1).getD ((i + 1) + k2) 0 =
            ema.getD ((i + 1) + k2) 0 := by
          simp [List.getD_eq_getElem?_getD, List.getElem?_set_ne hne]
        rw [hgd]
        rfl

/-- If the pair list fits, the `k`-th EMA entry after the loop is the
per-group body's new EMA value for the original `k`-th entry. -/
theorem emaLoop_ema (step : ℝ → List ℝ × List ℝ → ℝ × (List ℝ × List ℝ))
    (pairs : List (List ℝ × List ℝ)) :
    ∀ (ema : List ℝ) (i : ℕ), i + pairs.length ≤ ema.length →
      ∀ k (hk : k < pairs.length),
        ((emaLoop step ema i pairs).1)[i + k]? =
          some ((step (ema.getD (i + k) 0) (pairs.get ⟨k, hk⟩)).1) := by
  induction pairs with
  | nil =>
    intro ema i _ k hk
    exact absurd hk (Nat.not_lt_zero k)
  | cons gw rest ih =>
    intro ema i hle k hk
    have hle' : i + (rest.length + 1) ≤ ema.length := by simpa using hle
    have hilt : i < ema.length := by omega
    have hv : ema[i]? = some (ema.getD i 0) := by
      rw [List.getD_eq_getElem?_getD, List.getElem?_eq_getElem hilt]
      rfl
    simp only [emaLoop, hv]
    have hle2 : (i + 1) + rest.length ≤
        (ema.set i (step (ema.getD i 0) gw).1).length := by
      rw [List.length_set]; omega
    cases k with
    | zero =>
      have huntouched :
          ((emaLoop step (ema.set i (step (ema.getD i 0) gw).1) (i + 1) rest).1)[i]? =
            (ema.set i (step (ema.getD i 0) gw).1)[i]? :=
        emaLoop_getElem_lt step rest (ema.set i (step (ema.getD i 0) gw).1) (i + 1) i
          (Nat.lt_succ_self i)
      simp only [Nat.add_zero]
      rw [huntouched, List.getElem?_set_eq_of_lt _ hilt]
      rfl
    | succ k2 =>
      have hk3 : k2 < rest.length := by simpa using hk
      have hrec := ih (ema.set i (step (ema.getD i 0) gw).1) (i + 1) hle2 k2 hk3
      have harith : i + (k2 + 1) = (i + 1) + k2 := by omega
      rw [harith, hrec]
      have hne : i ≠ (i + 1) + k2 := by omega
      have hgd : (ema.set i (step (ema.getD i 0) gw).1).getD ((i + 1) + k2) 0 =
          ema.getD ((i + 1) + k2) 0 := by
        simp [List.getD_eq_getElem?_getD, List.getElem?_set_ne hne]
      rw [hgd]
      rfl

/-- The loop preserves non-negativity of the EMA list whenever the
per-group body does. -/
theorem emaLoop_nonneg (step : ℝ → List ℝ × List ℝ → ℝ × (List ℝ × List ℝ))
    (hstep : ∀ v gw, 0 ≤ v → 0 ≤ (step v gw).1)
    (pairs : List (List ℝ × List ℝ)) :
    ∀ (ema : List ℝ) (i : ℕ), (∀ x ∈ ema, 0 ≤ x) →
      ∀ x ∈ (emaLoop step ema i pairs).1, 0 ≤ x := by
  induction pairs with
  | nil => intro ema i hema; exact hema
  | cons gw rest ih =>
    intro ema i hema
    simp only [emaLoop]
    cases h : ema[i]? with
    | none => exact hema
    | some v =>
      have hv : 0 ≤ v := hema v (List.getElem?_mem h)
      refine ih (ema.set i (step v gw).1) (i + 1) ?_
      intro x hx
      rcases List.mem_or_eq_of_mem_set hx with hx2 | hx2
      · exact hema x hx2
      · rw [hx2]; exact hstep v gw hv

/-! ### Helper lemmas about the per-group bodies -/

/-- The new EMA value of a `NovoGrad2` group is the EMA blend of the old
value with the sum of squared gradient entries. -/
theorem novograd2Group_fst (beta1 beta2 eps wd v : ℝ) (gw : List ℝ × List ℝ) :
    (novograd2Group beta1 beta2 eps wd v gw).1 = emaUpdate beta2 v (sumSq gw.1) := rfl

/-- The new EMA value of a `NovoGrad` group is the EMA blend of the old
value with the p-norm of the gradient. -/
theorem novogradGroup_fst (beta1 beta2 eps p v : ℝ) (gw : List ℝ × List ℝ) :
    (novogradGroup beta1 beta2 eps p v gw).1 = emaUpdate beta2 v (lpNorm p gw.1) := rfl

/-- The `tf.cond` EMA update, written the way the spec states it. -/
theorem emaUpdate_eq_blend (beta2 v stat : ℝ) :
    emaUpdate beta2 v stat =
      if v = 0 then stat else beta2 * v + (1 - beta2) * stat := by
  unfold emaUpdate
  split
  · rfl
  · ring

theorem sumSq_nonneg (g : List ℝ) : 0 ≤ sumSq g := by
  apply List.sum_nonneg
  intro x hx
  obtain ⟨y, _, rfl⟩ := List.mem_map.mp hx
  exact sq_nonneg y

theorem lpNorm_nonneg (p : ℝ) (g : List ℝ) : 0 ≤ lpNorm p g := by
  apply Real.rpow_nonneg
  apply List.sum_nonneg
  intro x hx
  obtain ⟨y, _, rfl⟩ := List.mem_map.mp hx
  exact Real.rpow_nonneg (abs_nonneg y) p

theorem emaUpdate_nonneg (beta2 v stat : ℝ) (hb0 : 0 ≤ beta2) (hb1 : beta2 ≤ 1)
    (hv : 0 ≤ v) (hs : 0 ≤ stat) : 0 ≤ emaUpdate beta2 v stat := by
  unfold emaUpdate
  split
  · exact hs
  · have h1 : 0 ≤ 1 - beta2 := by linarith
    have h2 := mul_nonneg hv hb0
    have h3 := mul_nonneg hs h1
    linarith

/-! ### Claim theorems -/

/-- C4 (counterexample): construction with `weight_decay = -1 < 0`,
`beta1 = beta2 = 2` outside `[0,1)` and `epsilon = 0 ≤ 0` nevertheless
succeeds for both variants: no `ConfigurationError` is raised. -/
theorem init_no_validation_counterexample :
    ((-1 : ℝ) < 0) ∧ ¬ ((2 : ℝ) < 1) ∧ ((0 : ℝ) ≤ 0) ∧
    (NovoGrad2.initE 1 2 2 0 (-1) false).isOk = true ∧
    (NovoGrad.initE 1 2 2 0 2 false).isOk = true :=
  ⟨by norm_num, by norm_num, le_refl 0, rfl, rfl⟩

/-- C4 (amended): the constructors perform no hyperparameter validation
at all: construction succeeds for every real configuration, including
weight_decay < 0, beta1/beta2 outside [0,1) and epsilon ≤ 0. -/
theorem init_never_fails (lr beta1 beta2 eps wd p : ℝ) (ul : Bool) :
    (NovoGrad2.initE lr beta1 beta2 eps wd ul).isOk = true ∧
    (NovoGrad.initE lr beta1 beta2 eps p ul).isOk = true :=
  ⟨rfl, rfl⟩

/-- C9 (counterexample): `SethOptimizer.__init__` exposes a
`use_nesterov` argument and forwards the caller's value to the momentum
base: constructed with `use_nesterov=True` it passes `True`, so not
every variant passes `use_nesterov=False`. -/
theorem nesterov_toggle_counterexample :
    (SethOptimizer.init 1 (1/2) (1/100) false true).use_nesterov = true := rfl

/-- C9 (amended): NovoGrad2, NovoGradW and NovoGrad hard-code
`use_nesterov=False` for the momentum base; SethOptimizer exposes a
`use_nesterov` parameter and forwards the caller's value, so Nesterov is
disabled there only by default, not as a fixed choice. -/
theorem nesterov_configuration (lr beta1 beta2 eps wd p : ℝ) (ul un : Bool) :
    (NovoGrad2.init lr beta1 beta2 eps wd ul).use_nesterov = false ∧
    (NovoGradW.init wd lr beta1 beta2 eps ul).use_nesterov = false ∧
    (NovoGrad.init lr beta1 beta2 eps p ul).use_nesterov = false ∧
    (SethOptimizer.init lr beta1 eps ul un).use_nesterov = un :=
  ⟨rfl, rfl, rfl, rfl⟩

/-- C5: in NovoGrad2, a strictly positive weight_decay adds the term
`(1-beta1)*weight_decay*parameter` to the rescaled gradient before the
momentum step, and weight_decay = 0 yields exactly the computation with
the weight-decay logic removed. -/
theorem weight_decay_coupling (beta1 beta2 eps wd v : ℝ) (gw : List ℝ × List ℝ) :
    (wd > 0 → (novograd2Group beta1 beta2 eps wd v gw).2.1 =
      List.zipWith (fun g w => g + (1 - beta1) * wd * w)
        ((novograd2GroupNoDecay beta1 beta2 eps v gw).2.1) gw.2) ∧
    (wd = 0 → novograd2Group beta1 beta2 eps wd v gw =
      novograd2GroupNoDecay beta1 beta2 eps v gw) := by
  constructor
  · intro hwd
    simp only [novograd2Group, novograd2GroupNoDecay, if_pos hwd]
  · intro hwd
    subst hwd
    simp only [novograd2Group, novograd2GroupNoDecay, gt_iff_lt,
      lt_self_iff_false, if_false]

/-- C5 (witness): the coupled decay term at a concrete input. -/
theorem weight_decay_coupling_witness :
    (novograd2Group (1/2) (1/2) 1 1 0 ([1], [1])).2.1 =
      List.zipWith (fun g w => g + (1 - 1/2) * 1 * w)
        ((novograd2GroupNoDecay (1/2) (1/2) 1 0 ([1], [1])).2.1) [1] :=
  (weight_decay_coupling (1/2) (1/2) 1 1 0 ([1], [1])).1 (by norm_num)

/-- C7: with epsilon > 0 (and a non-negative stored EMA value, which
holds by the non-negativity invariant) every rescale denominator is
strictly positive — `sqrt(v_new + eps)` for NovoGrad2, `v_new + eps`
for NovoGrad, `g_norm + eps` for SethOptimizer — for every gradient
including the all-zero gradient; and epsilon enters only the factor,
never the stored EMA: the new stored EMA value is independent of
epsilon. -/
theorem denominator_positive (beta1 beta2 eps wd p v : ℝ) (gw : List ℝ × List ℝ)
    (heps : 0 < eps) (hv : 0 ≤ v) (hb0 : 0 ≤ beta2) (hb1 : beta2 < 1) :
    0 < Real.sqrt ((novograd2Group beta1 beta2 eps wd v gw).1 + eps) ∧
    0 < (novogradGroup beta1 beta2 eps p v gw).1 + eps ∧
    0 < l2Norm gw.1 + eps ∧
    (∀ eps2, (novograd2Group beta1 beta2 eps2 wd v gw).1 =
        (novograd2Group beta1 beta2 eps wd v gw).1 ∧
      (novogradGroup beta1 beta2 eps2 p v gw).1 =
        (novogradGroup beta1 beta2 eps p v gw).1) := by
  have hb1' : beta2 ≤ 1 := le_of_lt hb1
  have h2 : 0 ≤ (novograd2Group beta1 beta2 eps wd v gw).1 := by
    rw [novograd2Group_fst]
    exact emaUpdate_nonneg beta2 v (sumSq gw.1) hb0 hb1' hv (sumSq_nonneg gw.1)
  have h1 : 0 ≤ (novogradGroup beta1 beta2 eps p v gw).1 := by
    rw [novogradGroup_fst]
    exact emaUpdate_nonneg beta2 v (lpNorm p gw.1) hb0 hb1' hv (lpNorm_nonneg p gw.1)
  refine ⟨Real.sqrt_pos.mpr (by linarith), by linarith, ?_, fun eps2 => ⟨rfl, rfl⟩⟩
  have hsn := Real.sqrt_nonneg (sumSq gw.1)
  unfold l2Norm
  linarith

/-- C7 (witness): all denominators are positive at the all-zero
gradient. -/
theorem denominator_positive_witness :
    0 < Real.sqrt ((novograd2Group (1/2) (1/2) 1 0 0 ([0, 0], [0, 0])).1 + 1) ∧
    0 < (novogradGroup (1/2) (1/2) 1 2 0 ([0, 0], [0, 0])).1 + 1 ∧
    0 < l2Norm ([0, 0], [0, 0]).1 + 1 ∧
    (∀ eps2, (novograd2Group (1/2) (1/2) eps2 0 0 ([0, 0], [0, 0])).1 =
        (novograd2Group (1/2) (1/2) 1 0 0 ([0, 0], [0, 0])).1 ∧
      (novogradGroup (1/2) (1/2) eps2 2 0 ([0, 0], [0, 0])).1 =
        (novogradGroup (1/2) (1/2) 1 2 0 ([0, 0], [0, 0])).1) :=
  denominator_positive (1/2) (1/2) 1 0 2 0 ([0, 0], [0, 0])
    (by norm_num) (le_refl 0) (by norm_num) (by norm_num)

/-- C8: SethOptimizer keeps no EMA state: after an arbitrary history of
steps, the next step rescales the current gradient by
`beta / (||g||_2 + eps)` — computed from that step's gradient alone —
and delegates to the momentum update; two histories reaching the same
momentum state produce the same next state. -/
theorem seth_stateless_rescale (s : SethState) (mw1 mw2 : List ℝ × List ℝ)
    (gs1 gs2 : List (List ℝ)) (g : List ℝ)
    (h : SethOptimizer.runSteps s mw1 gs1 = SethOptimizer.runSteps s mw2 gs2) :
    SethOptimizer.runSteps s mw1 (gs1 ++ [g]) =
      momentumApply s.learning_rate s.momentum
        (SethOptimizer.runSteps s mw2 gs2)
        (g.map fun x => (s.momentum / (Real.sqrt (sumSq g) + s.epsilon)) * x) := by
  unfold SethOptimizer.runSteps at h ⊢
  rw [List.foldl_append, h]
  rfl

/-- C8 (witness): one concrete step after the empty history. -/
theorem seth_stateless_rescale_witness :
    SethOptimizer.runSteps (SethOptimizer.init 1 (1/2) 1 false false)
        ([0], [0]) ([] ++ [[0]]) =
      momentumApply (SethOptimizer.init 1 (1/2) 1 false false).learning_rate
        (SethOptimizer.init 1 (1/2) 1 false false).momentum
        (SethOptimizer.runSteps (SethOptimizer.init 1 (1/2) 1 false false)
          ([0], [0]) [])
        ([0].map fun x => ((SethOptimizer.init 1 (1/2) 1 false false).momentum /
          (Real.sqrt (sumSq [0]) +
            (SethOptimizer.init 1 (1/2) 1 false false).epsilon)) * x) :=
  seth_stateless_rescale (SethOptimizer.init 1 (1/2) 1 false false)
    ([0], [0]) ([0], [0]) [] [] [0] rfl

/-- The rescaled pair of a `NovoGrad2` group with zero weight decay:
gradient times `(1-beta1)/sqrt(v_new+eps)` and the unchanged variable. -/
theorem novograd2Group_snd_zero_wd (beta1 beta2 eps v : ℝ) (gw : List ℝ × List ℝ) :
    (novograd2Group beta1 beta2 eps 0 v gw).2 =
      (gw.1.map fun x =>
          x * ((1 - beta1) / Real.sqrt (emaUpdate beta2 v (sumSq gw.1) + eps)),
        gw.2) := by
  simp only [novograd2Group, gt_iff_lt, lt_self_iff_false, if_false]

/-- The rescaled pair of a `NovoGrad` group: gradient times
`beta1/(v_new+eps)` and the unchanged variable. -/
theorem novogradGroup_snd (beta1 beta2 eps p v : ℝ) (gw : List ℝ × List ℝ) :
    (novogradGroup beta1 beta2 eps p v gw).2 =
      (gw.1.map fun x =>
          (beta1 / (emaUpdate beta2 v (lpNorm p gw.1) + eps)) * x,
        gw.2) := rfl

/-- C1: for every group k the EMA update of apply_gradients is
piecewise: if the stored value v is exactly 0, the new value is the raw
gradient statistic; otherwise it is `beta2*v + (1-beta2)*stat` — with
`stat` the sum of squared gradient entries for NovoGrad2 and the p-norm
of the gradient for NovoGrad. -/
theorem ema_update_piecewise (lr beta1 beta2 eps wd p v : ℝ) (ul un : Bool)
    (ema : List ℝ) (gvs : List (List ℝ × List ℝ)) (k : ℕ)
    (hk : k < gvs.length) (hlen : gvs.length ≤ ema.length)
    (hv : ema.getD k 0 = v) :
    (∃ emaF, (NovoGrad2.apply_gradients
        ⟨lr, beta1, beta2, eps, wd, ul, un, some ema⟩ gvs).1.grads_ema = some emaF ∧
      emaF[k]? = some (if v = 0 then sumSq (gvs.get ⟨k, hk⟩).1
        else beta2 * v + (1 - beta2) * sumSq (gvs.get ⟨k, hk⟩).1)) ∧
    (∃ emaF, (NovoGrad.apply_gradients
        ⟨lr, beta1, beta2, eps, p, ul, un, some ema⟩ gvs).1.grads_ema = some emaF ∧
      emaF[k]? = some (if v = 0 then lpNorm p (gvs.get ⟨k, hk⟩).1
        else beta2 * v + (1 - beta2) * lpNorm p (gvs.get ⟨k, hk⟩).1)) := by
  have h0 : 0 + gvs.length ≤ ema.length := by simpa using hlen
  constructor
  · refine ⟨(emaLoop (novograd2Group beta1 beta2 eps wd) ema 0 gvs).1, rfl, ?_⟩
    have hema := emaLoop_ema (novograd2Group beta1 beta2 eps wd) gvs ema 0 h0 k hk
    rw [Nat.zero_add] at hema
    rw [hema, novograd2Group_fst, hv, emaUpdate_eq_blend]
  · refine ⟨(emaLoop (novogradGroup beta1 beta2 eps p) ema 0 gvs).1, rfl, ?_⟩
    have hema := emaLoop_ema (novogradGroup beta1 beta2 eps p) gvs ema 0 h0 k hk
    rw [Nat.zero_add] at hema
    rw [hema, novogradGroup_fst, hv, emaUpdate_eq_blend]

/-- C1 (witness): cold start at a concrete input (stored value 0). -/
theorem ema_update_piecewise_witness :
    (∃ emaF, (NovoGrad2.apply_gradients
        ⟨1, 1/2, 1/2, 1, 0, false, false, some [0]⟩ [([1], [1])]).1.grads_ema = some emaF ∧
      emaF[0]? = some (if (0 : ℝ) = 0 then sumSq ([([1], [1])].get ⟨0, by decide⟩).1
        else 1/2 * 0 + (1 - 1/2) * sumSq ([([1], [1])].get ⟨0, by decide⟩).1)) ∧
    (∃ emaF, (NovoGrad.apply_gradients
        ⟨1, 1/2, 1/2, 1, 2, false, false, some [0]⟩ [([1], [1])]).1.grads_ema = some emaF ∧
      emaF[0]? = some (if (0 : ℝ) = 0 then lpNorm 2 ([([1], [1])].get ⟨0, by decide⟩).1
        else 1/2 * 0 + (1 - 1/2) * lpNorm 2 ([([1], [1])].get ⟨0, by decide⟩).1)) :=
  ema_update_piecewise 1 (1/2) (1/2) 1 0 2 0 false false [0] [([1], [1])] 0
    (by decide) (by decide) rfl

/-- C2: the gradient handed on for group k is the original gradient
multiplied elementwise by the scalar factor
`(1-beta1)/sqrt(v_new+eps)` (NovoGrad2, squared-norm mode, with zero
weight decay) resp. `beta1/(v_new+eps)` (NovoGrad, norm mode), where
`v_new` is the freshly updated EMA value. -/
theorem rescale_factor_correct (lr beta1 beta2 eps p v : ℝ) (ul un : Bool)
    (ema : List ℝ) (gvs : List (List ℝ × List ℝ)) (k : ℕ)
    (hk : k < gvs.length) (hlen : gvs.length ≤ ema.length)
    (hv : ema.getD k 0 = v) :
    (∃ out, (NovoGrad2.apply_gradients
        ⟨lr, beta1, beta2, eps, 0, ul, un, some ema⟩ gvs).2 = Except.ok out ∧
      out[k]? = some ((gvs.get ⟨k, hk⟩).1.map fun x =>
          x * ((1 - beta1) /
            Real.sqrt (emaUpdate beta2 v (sumSq (gvs.get ⟨k, hk⟩).1) + eps)),
        (gvs.get ⟨k, hk⟩).2)) ∧
    (∃ out, (NovoGrad.apply_gradients
        ⟨lr, beta1, beta2, eps, p, ul, un, some ema⟩ gvs).2 = Except.ok out ∧
      out[k]? = some ((gvs.get ⟨k, hk⟩).1.map fun x =>
          (beta1 / (emaUpdate beta2 v (lpNorm p (gvs.get ⟨k, hk⟩).1) + eps)) * x,
        (gvs.get ⟨k, hk⟩).2)) := by
  have h0 : 0 + gvs.length ≤ ema.length := by simpa using hlen
  constructor
  · obtain ⟨out, hout, _, hat⟩ :=
      emaLoop_ok (novograd2Group beta1 beta2 eps 0) gvs ema 0 h0
    refine ⟨out, hout, ?_⟩
    have hrec := hat k hk
    rw [Nat.zero_add] at hrec
    rw [hrec, novograd2Group_snd_zero_wd, hv]
  · obtain ⟨out, hout, _, hat⟩ :=
      emaLoop_ok (novogradGroup beta1 beta2 eps p) gvs ema 0 h0
    refine ⟨out, hout, ?_⟩
    have hrec := hat k hk
    rw [Nat.zero_add] at hrec
    rw [hrec, novogradGroup_snd, hv]

/-- C2 (witness): the factor formula at a concrete input. -/
theorem rescale_factor_correct_witness :
    (∃ out, (NovoGrad2.apply_gradients
        ⟨1, 1/2, 1/2, 1, 0, false, false, some [0]⟩ [([1], [1])]).2 = Except.ok out ∧
      out[0]? = some (([([1], [1])].get ⟨0, by decide⟩).1.map fun x =>
          x * ((1 - 1/2) /
            Real.sqrt (emaUpdate (1/2) 0 (sumSq ([([1], [1])].get ⟨0, by decide⟩).1) + 1)),
        ([([1], [1])].get ⟨0, by decide⟩).2)) ∧
    (∃ out, (NovoGrad.apply_gradients
        ⟨1, 1/2, 1/2, 1, 2, false, false, some [0]⟩ [([1], [1])]).2 = Except.ok out ∧
      out[0]? = some (([([1], [1])].get ⟨0, by decide⟩).1.map fun x =>
          (1/2 / (emaUpdate (1/2) 0 (lpNorm 2 ([([1], [1])].get ⟨0, by decide⟩).1) + 1)) * x,
        ([([1], [1])].get ⟨0, by decide⟩).2)) :=
  rescale_factor_correct 1 (1/2) (1/2) 1 2 0 false false [0] [([1], [1])] 0
    (by decide) (by decide) rfl

/-- C10: on a successful call the grads_and_vars list seen after
apply_gradients has, at every index, the rescaled gradient of that group
paired with the unchanged variable — the rescaled gradients replace the
originals, the variable entries survive, for both variants. -/
theorem grads_and_vars_overwrite (lr beta1 beta2 eps wd p : ℝ) (ul un : Bool)
    (ema : List ℝ) (gvs : List (List ℝ × List ℝ))
    (hlen : gvs.length ≤ ema.length) :
    (∃ out, (NovoGrad2.apply_gradients
        ⟨lr, beta1, beta2, eps, wd, ul, un, some ema⟩ gvs).2 = Except.ok out ∧
      out.length = gvs.length ∧
      ∀ k (hk : k < gvs.length), out[k]? =
        some ((novograd2Group beta1 beta2 eps wd (ema.getD k 0) (gvs.get ⟨k, hk⟩)).2.1,
          (gvs.get ⟨k, hk⟩).2)) ∧
    (∃ out, (NovoGrad.apply_gradients
        ⟨lr, beta1, beta2, eps, p, ul, un, some ema⟩ gvs).2 = Except.ok out ∧
      out.length = gvs.length ∧
      ∀ k (hk : k < gvs.length), out[k]? =
        some ((novogradGroup beta1 beta2 eps p (ema.getD k 0) (gvs.get ⟨k, hk⟩)).2.1,
          (gvs.get ⟨k, hk⟩).2)) := by
  have h0 : 0 + gvs.length ≤ ema.length := by simpa using hlen
  constructor
  · obtain ⟨out, hout, hlen2, hat⟩ :=
      emaLoop_ok (novograd2Group beta1 beta2 eps wd) gvs ema 0 h0
    refine ⟨out, hout, hlen2, ?_⟩
    intro k hk
    have hrec := hat k hk
    rw [Nat.zero_add] at hrec
    rw [hrec]
    rfl
  · obtain ⟨out, hout, hlen2, hat⟩ :=
      emaLoop_ok (novogradGroup beta1 beta2 eps p) gvs ema 0 h0
    refine ⟨out, hout, hlen2, ?_⟩
    intro k hk
    have hrec := hat k hk
    rw [Nat.zero_add] at hrec
    rw [hrec]
    rfl

/-- C10 (witness): the overwrite at a concrete input. -/
theorem grads_and_vars_overwrite_witness :
    (∃ out, (NovoGrad2.apply_gradients
        ⟨1, 1/2, 1/2, 1, 0, false, false, some [0]⟩ [([1], [1])]).2 = Except.ok out ∧
      out.length = [([(1:ℝ)], [(1:ℝ)])].length ∧
      ∀ k (hk : k < [([(1:ℝ)], [(1:ℝ)])].length), out[k]? =
        some ((novograd2Group (1/2) (1/2) 1 0 ([(0:ℝ)].getD k 0)
            ([([1], [1])].get ⟨k, hk⟩)).2.1,
          ([([1], [1])].get ⟨k, hk⟩).2)) ∧
    (∃ out, (NovoGrad.apply_gradients
        ⟨1, 1/2, 1/2, 1, 2, false, false, some [0]⟩ [([1], [1])]).2 = Except.ok out ∧
      out.length = [([(1:ℝ)], [(1:ℝ)])].length ∧
      ∀ k (hk : k < [([(1:ℝ)], [(1:ℝ)])].length), out[k]? =
        some ((novogradGroup (1/2) (1/2) 1 2 ([(0:ℝ)].getD k 0)
            ([([1], [1])].get ⟨k, hk⟩)).2.1,
          ([([1], [1])].get ⟨k, hk⟩).2)) :=
  grads_and_vars_overwrite 1 (1/2) (1/2) 1 0 2 false false [0] [([1], [1])]
    (by decide)

/-- C3 (amended): a second call whose pair list is longer than the EMA
state raises `IndexError` — not `ConfigurationError` — while a call
with at most as many pairs succeeds; both variants. -/
theorem apply_gradients_length_mismatch (lr beta1 beta2 eps wd p : ℝ) (ul un : Bool)
    (ema : List ℝ) (gvs : List (List ℝ × List ℝ)) :
    (ema.length < gvs.length →
      (NovoGrad2.apply_gradients
          ⟨lr, beta1, beta2, eps, wd, ul, un, some ema⟩ gvs).2 =
        Except.error PyError.IndexError ∧
      (NovoGrad.apply_gradients
          ⟨lr, beta1, beta2, eps, p, ul, un, some ema⟩ gvs).2 =
        Except.error PyError.IndexError) ∧
    (gvs.length ≤ ema.length →
      (∃ out, (NovoGrad2.apply_gradients
          ⟨lr, beta1, beta2, eps, wd, ul, un, some ema⟩ gvs).2 = Except.ok out) ∧
      (∃ out, (NovoGrad.apply_gradients
          ⟨lr, beta1, beta2, eps, p, ul, un, some ema⟩ gvs).2 = Except.ok out)) := by
  constructor
  · intro hlt
    have hlt0 : ema.length < 0 + gvs.length := by simpa using hlt
    exact ⟨emaLoop_error (novograd2Group beta1 beta2 eps wd) gvs ema 0
        (Nat.zero_le _) hlt0,
      emaLoop_error (novogradGroup beta1 beta2 eps p) gvs ema 0
        (Nat.zero_le _) hlt0⟩
  · intro hle
    have h0 : 0 + gvs.length ≤ ema.length := by simpa using hle
    obtain ⟨out2, hout2, -, -⟩ :=
      emaLoop_ok (novograd2Group beta1 beta2 eps wd) gvs ema 0 h0
    obtain ⟨out1, hout1, -, -⟩ :=
      emaLoop_ok (novogradGroup beta1 beta2 eps p) gvs ema 0 h0
    exact ⟨⟨out2, hout2⟩, ⟨out1, hout1⟩⟩

/-- C3 (witness of the amended claim): a two-pair call against one-entry
EMA state raises IndexError in both variants. -/
theorem apply_gradients_length_mismatch_witness :
    (NovoGrad2.apply_gradients
        ⟨1, 1/2, 1/2, 1, 0, false, false, some [0]⟩
        [([1], [1]), ([2], [2])]).2 = Except.error PyError.IndexError ∧
    (NovoGrad.apply_gradients
        ⟨1, 1/2, 1/2, 1, 2, false, false, some [0]⟩
        [([1], [1]), ([2], [2])]).2 = Except.error PyError.IndexError :=
  (apply_gradients_length_mismatch 1 (1/2) (1/2) 1 0 2 false false [0]
    [([1], [1]), ([2], [2])]).1 (by decide)

/-- One `NovoGrad2.apply_gradients` call preserves non-negativity of
the stored EMA list. -/
theorem novograd2_apply_preserves_nonneg (s : NovoGrad2State)
    (hb0 : 0 ≤ s.beta2) (hb1 : s.beta2 ≤ 1) (gvs : List (List ℝ × List ℝ))
    (hs : ∀ ema, s.grads_ema = some ema → ∀ x ∈ ema, 0 ≤ x) :
    ∀ ema, ((NovoGrad2.apply_gradients s gvs).1).grads_ema = some ema →
      ∀ x ∈ ema, 0 ≤ x := by
  intro ema hema
  have hbase : ∀ x ∈ NovoGrad2.emaInit s gvs.length, 0 ≤ x := by
    intro x hx
    unfold NovoGrad2.emaInit at hx
    cases hopt : s.grads_ema with
    | none =>
      rw [hopt] at hx
      simp only [] at hx
      have := List.eq_of_mem_replicate hx
      rw [this]
    | some e =>
      rw [hopt] at hx
      exact hs e hopt x hx
  have hstep : ∀ v gw, 0 ≤ v →
      0 ≤ (novograd2Group s.beta1 s.beta2 s.epsilon s.weight_decay v gw).1 := by
    intro v gw hv
    rw [novograd2Group_fst]
    exact emaUpdate_nonneg s.beta2 v (sumSq gw.1) hb0 hb1 hv (sumSq_nonneg gw.1)
  have hema2 : ema = (emaLoop (novograd2Group s.beta1 s.beta2 s.epsilon s.weight_decay)
      (NovoGrad2.emaInit s gvs.length) 0 gvs).1 := by
    unfold NovoGrad2.apply_gradients at hema
    simp only [] at hema
    exact (Option.some.inj hema).symm
  rw [hema2]
  exact emaLoop_nonneg _ hstep gvs (NovoGrad2.emaInit s gvs.length) 0 hbase

/-- One `NovoGrad.apply_gradients` call preserves non-negativity of the
stored EMA list. -/
theorem novograd_apply_preserves_nonneg (s : NovoGradState)
    (hb0 : 0 ≤ s.beta2) (hb1 : s.beta2 ≤ 1) (gvs : List (List ℝ × List ℝ))
    (hs : ∀ ema, s.grads_ema = some ema → ∀ x ∈ ema, 0 ≤ x) :
    ∀ ema, ((NovoGrad.apply_gradients s gvs).1).grads_ema = some ema →
      ∀ x ∈ ema, 0 ≤ x := by
  intro ema hema
  have hbase : ∀ x ∈ NovoGrad.emaInit s gvs.length, 0 ≤ x := by
    intro x hx
    unfold NovoGrad.emaInit at hx
    cases hopt : s.grads_ema with
    | none =>
      rw [hopt] at hx
      simp only [] at hx
      have := List.eq_of_mem_replicate hx
      rw [this]
    | some e =>
      rw [hopt] at hx
      exact hs e hopt x hx
  have hstep : ∀ v gw, 0 ≤ v →
      0 ≤ (novogradGroup s.beta1 s.beta2 s.epsilon s.ord v gw).1 := by
    intro v gw hv
    rw [novogradGroup_fst]
    exact emaUpdate_nonneg s.beta2 v (lpNorm s.ord gw.1) hb0 hb1 hv
      (lpNorm_nonneg s.ord gw.1)
  have hema2 : ema = (emaLoop (novogradGroup s.beta1 s.beta2 s.epsilon s.ord)
      (NovoGrad.emaInit s gvs.length) 0 gvs).1 := by
    unfold NovoGrad.apply_gradients at hema
    simp only [] at hema
    exact (Option.some.inj hema).symm
  rw [hema2]
  exact emaLoop_nonneg _ hstep gvs (NovoGrad.emaInit s gvs.length) 0 hbase

/-- Any sequence of `NovoGrad2.apply_gradients` calls preserves
non-negativity of the stored EMA list. -/
theorem novograd2_run_preserves_nonneg (calls : List (List (List ℝ × List ℝ))) :
    ∀ (s : NovoGrad2State), 0 ≤ s.beta2 → s.beta2 ≤ 1 →
      (∀ ema, s.grads_ema = some ema → ∀ x ∈ ema, 0 ≤ x) →
      ∀ ema, (NovoGrad2.run s calls).grads_ema = some ema → ∀ x ∈ ema, 0 ≤ x := by
  induction calls with
  | nil => intro s _ _ hs; exact hs
  | cons c rest ih =>
    intro s hb0 hb1 hs ema hema
    have hstep := novograd2_apply_preserves_nonneg s hb0 hb1 c hs
    refine ih ((NovoGrad2.apply_gradients s c).1) hb0 hb1 hstep ema ?_
    simpa [NovoGrad2.run] using hema

/-- Any sequence of `NovoGrad.apply_gradients` calls preserves
non-negativity of the stored EMA list. -/
theorem novograd_run_preserves_nonneg (calls : List (List (List ℝ × List ℝ))) :
    ∀ (s : NovoGradState), 0 ≤ s.beta2 → s.beta2 ≤ 1 →
      (∀ ema, s.grads_ema = some ema → ∀ x ∈ ema, 0 ≤ x) →
      ∀ ema, (NovoGrad.run s calls).grads_ema = some ema → ∀ x ∈ ema, 0 ≤ x := by
  induction calls with
  | nil => intro s _ _ hs; exact hs
  | cons c rest ih =>
    intro s hb0 hb1 hs ema hema
    have hstep := novograd_apply_preserves_nonneg s hb0 hb1 c hs
    refine ih ((NovoGrad.apply_gradients s c).1) hb0 hb1 hstep ema ?_
    simpa [NovoGrad.run] using hema

/-- C6: starting from construction (zero-initialized EMA state), after
any number of apply_gradients steps with any real-valued gradients,
every stored EMA value is non-negative, in both variants, given beta2
in [0,1). -/
theorem ema_nonneg_invariant (lr beta1 beta2 eps wd p : ℝ) (ul : Bool)
    (hb0 : 0 ≤ beta2) (hb1 : beta2 < 1)
    (calls : List (List (List ℝ × List ℝ))) :
    (∀ ema, (NovoGrad2.run (NovoGrad2.init lr beta1 beta2 eps wd ul)
        calls).grads_ema = some ema → ∀ x ∈ ema, 0 ≤ x) ∧
    (∀ ema, (NovoGrad.run (NovoGrad.init lr beta1 beta2 eps p ul)
        calls).grads_ema = some ema → ∀ x ∈ ema, 0 ≤ x) := by
  have hb1' : beta2 ≤ 1 := le_of_lt hb1
  constructor
  · exact novograd2_run_preserves_nonneg calls (NovoGrad2.init lr beta1 beta2 eps wd ul)
      hb0 hb1' (fun ema h => Option.noConfusion h)
  · exact novograd_run_preserves_nonneg calls (NovoGrad.init lr beta1 beta2 eps p ul)
      hb0 hb1' (fun ema h => Option.noConfusion h)

/-- C6 (witness): the invariant after one concrete step. -/
theorem ema_nonneg_invariant_witness :
    (∀ ema, (NovoGrad2.run (NovoGrad2.init 1 (1/2) (1/2) 1 0 false)
        [[([1], [1])]]).grads_ema = some ema → ∀ x ∈ ema, 0 ≤ x) ∧
    (∀ ema, (NovoGrad.run (NovoGrad.init 1 (1/2) (1/2) 1 2 false)
        [[([1], [1])]]).grads_ema = some ema → ∀ x ∈ ema, 0 ≤ x) :=
  ema_nonneg_invariant 1 (1/2) (1/2) 1 0 2 false (by norm_num) (by norm_num)
    [[([1], [1])]]

/-- C3 (counterexample): after a first call with one pair, a second
call with two pairs raises `IndexError` — not `ConfigurationError` —
and the previously established EMA state is overwritten on the way
(from `some [1]` to `some [5/2]`): the mismatched call is neither
rejected with the specified error nor atomic. -/
theorem apply_gradients_mismatch_counterexample :
    ((NovoGrad2.apply_gradients
        (NovoGrad2.apply_gradients (NovoGrad2.init 1 (1/2) (1/2) 1 0 false)
          [([1], [1])]).1
        [([2], [2]), ([3], [3])]).2 = Except.error PyError.IndexError) ∧
    ((NovoGrad2.apply_gradients (NovoGrad2.init 1 (1/2) (1/2) 1 0 false)
        [([1], [1])]).1.grads_ema = some [1]) ∧
    ((NovoGrad2.apply_gradients
        (NovoGrad2.apply_gradients (NovoGrad2.init 1 (1/2) (1/2) 1 0 false)
          [([1], [1])]).1
        [([2], [2]), ([3], [3])]).1.grads_ema = some [5/2]) ∧
    (some [(5 : ℝ)/2] ≠ some [(1 : ℝ)]) ∧
    (PyError.IndexError ≠ PyError.ConfigurationError) := by
  have e1 : sumSq [(1 : ℝ)] = 1 := by
    simp [sumSq]
  have e2 : sumSq [(2 : ℝ)] = 4 := by
    simp [sumSq]
    norm_num
  have u1 : emaUpdate (2 : ℝ)⁻¹ 0 (sumSq [(1 : ℝ)]) = 1 := by
    rw [e1]
    simp [emaUpdate]
  have u2 : emaUpdate (2 : ℝ)⁻¹ 1 (sumSq [(2 : ℝ)]) = 5/2 := by
    rw [e2, emaUpdate, if_neg (by norm_num)]
    norm_num
  have first : (NovoGrad2.apply_gradients (NovoGrad2.init 1 (1/2) (1/2) 1 0 false)
      [([1], [1])]).1.grads_ema = some [1] := by
    simp [NovoGrad2.apply_gradients, NovoGrad2.emaInit, NovoGrad2.init,
      emaLoop, novograd2Group_fst, u1]
  have firstState : (NovoGrad2.apply_gradients (NovoGrad2.init 1 (1/2) (1/2) 1 0 false)
      [([1], [1])]).1 =
      ⟨1, 1/2, 1/2, 1, 0, false, false, some [1]⟩ := by
    simp [NovoGrad2.apply_gradients, NovoGrad2.emaInit, NovoGrad2.init,
      emaLoop, novograd2Group_fst, u1]
  refine ⟨?_, first, ?_, by simp; norm_num, by decide⟩
  · rw [firstState]
    simp [NovoGrad2.apply_gradients, NovoGrad2.emaInit, emaLoop,
      novograd2Group_fst, u2, Except.map]
  · rw [firstState]
    simp [NovoGrad2.apply_gradients, NovoGrad2.emaInit, emaLoop,
      novograd2Group_fst, u2]

end NovoGradVerify
